import Mathlib

/-!
Shallow embedding of the Atmosic I2C controller driver core
(src/drivers/i2c/i2c_atm.c): the bit-phase polling loops of i2c_out_sync and
i2c_in_sync, the message sequencers i2c_atm_write_msg and i2c_atm_read_msg,
the transfer orchestrator i2c_atm_transfer, and the speed programming
i2c_atm_set_speed, together with theorems settling the specification's claims
against the code.

Modelling scope: machine integers are Nat with explicit mod where overflow or
wraparound matters (uint8_t truncation at out-phase values, the uint32_t
wraparound of msg.len - 1 and of the clock-divider subtraction).  The hardware
is an oracle: an ack oracle says whether the peer acknowledged the k-th driven
out-phase of a message (out-phases otherwise complete), and an incoming-data
oracle gives the byte latched by the k-th in-phase of a message.  The polling
loops are embedded separately, fuel-indexed, with the status register as a
done-flag stream; their outcome records the number of completed (yielding)
iterations, the number of status-register reads, and the value written to the
transaction setup register when timing out.
-/

namespace I2cAtm

/-- Head phase of a bus transaction (enum i2c_head_e in the source). -/
inductive i2c_head_t | START | STALL
  deriving DecidableEq

/-- Tail phase of a bus transaction (enum i2c_tail_e in the source). -/
inductive i2c_tail_t | STOP | STALL | RESTART
  deriving DecidableEq

/-- ACK or NACK value (enum i2c_ack_e in the source; ACK is active low). -/
inductive i2c_ack_t | ACK | NACK
  deriving DecidableEq

/-- Error results of the driver, standing for the negative errno values the C
code returns: inval = -EINVAL, ioerr = -EIO, notsup = -ENOTSUP. -/
inductive Err | inval | ioerr | notsup
  deriving DecidableEq

/-- Write direction bit (enum i2c_rw_e in the source, I2C_WRITE = 0). -/
def I2C_WRITE : Nat := 0

/-- Read direction bit (enum i2c_rw_e in the source, I2C_READ = 1). -/
def I2C_READ : Nat := 1

/-- Modelled from the spec: the release-bus-after (STOP) message-flag bit of
the Zephyr i2c.h header, which is not under src/ (bit 1 of msg.flags). -/
def I2C_MSG_STOP : Nat := 2

/-- Modelled from the spec: the direction mask of the Zephyr i2c.h header,
which is not under src/ (bit 0 of msg.flags selects read). -/
def I2C_MSG_RW_MASK : Nat := 1

/-- Modelled from the spec: the direction value denoting a write message in
the Zephyr i2c.h header, which is not under src/. -/
def I2C_MSG_WRITE : Nat := 0

/-- Modelled from the spec: the 10-bit-addressing bit of the controller
configuration word in the Zephyr i2c.h header, which is not under src/. -/
def I2C_ADDR_10_BITS : Nat := 1

/-- Outcome of a bit-phase polling loop.  timedOut records the number of
completed (yielding) loop iterations, the total number of status-register
reads, and the value written to the transaction setup register immediately
before returning -EIO.  completed records the iterations and reads when the
status finally showed done. -/
inductive PollOutcome where
  | timedOut (yields polls setup : Nat)
  | completed (yields polls : Nat)
  deriving DecidableEq

/-- Polling loop of i2c_in_sync.  The counter i is declared before the loop in
the source, so it persists across iterations; each body entry compares i
against CONFIG_I2C_ATM_TIMEOUT (here T) and then increments it, writing 0 to
the transaction setup register and returning -EIO when i exceeds T.  done is
the status-register stream (true = done flag set at that read); polls counts
the status reads so far.  Fuel-indexed: none means the loop has not returned
within the given number of body entries. -/
def i2c_in_sync_poll (done : Nat → Bool) (T : Nat) : Nat → Nat → Nat → Option PollOutcome
  | 0, _, _ => none
  | fuel + 1, i, polls =>
    if done polls then some (.completed i (polls + 1))
    else if T < i then some (.timedOut i (polls + 1) 0)
    else i2c_in_sync_poll done T fuel (i + 1) (polls + 1)

/-- Polling loop of i2c_out_sync.  In the source the counter is declared
inside the loop body (int i = 0 on line 86), so it is re-initialized to 0 on
every iteration before the comparison against CONFIG_I2C_ATM_TIMEOUT. -/
def i2c_out_sync_poll (done : Nat → Bool) (T : Nat) : Nat → Nat → Option PollOutcome
  | 0, _ => none
  | fuel + 1, polls =>
    if done polls then some (.completed polls (polls + 1))
    else
      let i : Nat := 0
      if T < i then some (.timedOut i (polls + 1) 0)
      else i2c_out_sync_poll done T fuel (polls + 1)

/-- One issued bus phase: out embeds a call i2c_out_sync(head, val, tail)
(val is the uint8_t byte driven), inp embeds a call i2c_in_sync(ack, tail)
(head is always STALL for an in-phase in the source). -/
inductive Phase where
  | out (head : i2c_head_t) (val : Nat) (tail : i2c_tail_t)
  | inp (ack : i2c_ack_t) (tail : i2c_tail_t)
  deriving DecidableEq

/-- Unsigned 32-bit decrement: msg.len - 1 computed in uint32_t arithmetic as
the source's loop bound does (wraps to 4294967295 when len = 0). -/
def u32_pred (len : Nat) : Nat := (len + 4294967295) % 4294967296

/-- Data-byte loop of i2c_atm_write_msg: n remaining iterations, current loop
index i, and p the index of the next out-phase of this message (consumed by
the ack oracle).  Each iteration reads msg.buf at the loop index, drives it
with head STALL and tail STALL, and aborts with -EIO if the peer NACKed.
Returns (error if any, phases issued, buffer indices read). -/
def write_data_loop (ack : Nat → Bool) (buf : Nat → Nat) :
    Nat → Nat → Nat → Option Err × List Phase × List Nat
  | 0, _, _ => (none, [], [])
  | n + 1, i, p =>
    if ack p then
      let r := write_data_loop ack buf n (i + 1) (p + 1)
      (r.1, Phase.out .STALL (buf i) .STALL :: r.2.1, i :: r.2.2)
    else (some .ioerr, [Phase.out .STALL (buf i) .STALL], [i])

/-- Tail part of i2c_atm_write_msg after the address handling: the data-byte
loop over n = msg.len - 1 (uint32_t) iterations followed by the last write of
msg.buf at index n with the given tail; p0 is the out-phase index at which the
loop starts. -/
def write_msg_rest (ack : Nat → Bool) (buf : Nat → Nat) (n : Nat)
    (tail : i2c_tail_t) (p0 : Nat) : Option Err × List Phase × List Nat :=
  match write_data_loop ack buf n 0 p0 with
  | (some e, ps, ix) => (some e, ps, ix)
  | (none, ps, ix) =>
    ((if ack (p0 + n) then none else some .ioerr),
     ps ++ [Phase.out .STALL (buf n) tail], ix ++ [n])

/-- Write-message sequencer i2c_atm_write_msg.  Validation: a zero-length
message whose flags are not exactly I2C_MSG_STOP is rejected with -EINVAL.
At msg_idx 0 the address byte (addr shifted left by 1, or-ed with the write
bit, truncated to uint8_t) is driven with head START and tail STALL when the
message has payload, else STOP, returning immediately for a zero-length
message; then the data-byte loop and the last write run, where the loop bound
msg.len - 1 is uint32_t arithmetic.  The ack oracle gives the peer's answer
to the k-th out-phase of this message. -/
def i2c_atm_write_msg (ack : Nat → Bool) (addr : Nat) (buf : Nat → Nat)
    (len flags msg_idx : Nat) : Option Err × List Phase × List Nat :=
  if len = 0 ∧ flags ≠ I2C_MSG_STOP then (some .inval, [], [])
  else
    let tl : i2c_tail_t := if flags &&& I2C_MSG_STOP ≠ 0 then .STOP else .STALL
    if msg_idx = 0 then
      let aph := Phase.out .START (((addr <<< 1) ||| I2C_WRITE) % 256)
        (if len ≠ 0 then .STALL else .STOP)
      if ack 0 then
        if len = 0 then (none, [aph], [])
        else
          let r := write_msg_rest ack buf (u32_pred len) tl 1
          (r.1, aph :: r.2.1, r.2.2)
      else (some .ioerr, [aph], [])
    else write_msg_rest ack buf (u32_pred len) tl 0

/-- Data-byte loop of i2c_atm_read_msg: n remaining latches, each with ACK and
tail STALL, starting at buffer index i; each latched byte (from the incoming
data oracle inv, indexed by in-phase number, truncated to uint8_t by the
buffer store) is written to the buffer at its index.  Returns (phases issued,
buffer writes as index-value pairs). -/
def read_data_loop (inv : Nat → Nat) : Nat → Nat → List Phase × List (Nat × Nat)
  | 0, _ => ([], [])
  | n + 1, i =>
    let r := read_data_loop inv n (i + 1)
    (Phase.inp .ACK .STALL :: r.1, (i, inv i % 256) :: r.2)

/-- Read-message sequencer i2c_atm_read_msg.  A zero-length read is rejected
with -EINVAL before any phase.  Otherwise the address byte (addr shifted left
by 1, or-ed with the read bit, truncated to uint8_t) is driven with head
START and tail STALL; then len - 1 bytes are latched with ACK and tail STALL,
and the last byte with NACK and tail STOP when the STOP flag is set, else
RESTART; every latched byte is stored at its buffer index. -/
def i2c_atm_read_msg (ack : Nat → Bool) (inv : Nat → Nat) (addr : Nat)
    (len flags : Nat) : Option Err × List Phase × List (Nat × Nat) :=
  if len = 0 then (some .inval, [], [])
  else
    let aph := Phase.out .START (((addr <<< 1) ||| I2C_READ) % 256) .STALL
    if ack 0 then
      let r := read_data_loop inv (len - 1) 0
      let lastTail : i2c_tail_t := if flags &&& I2C_MSG_STOP ≠ 0 then .STOP else .RESTART
      (none, aph :: r.1 ++ [Phase.inp .NACK lastTail],
       r.2 ++ [(len - 1, inv (len - 1) % 256)])
    else (some .ioerr, [aph], [])

/-- One i2c_msg as the orchestrator sees it: the byte buffer (as a function
from index to byte value), the uint32_t length, and the flags byte. -/
structure Msg where
  buf : Nat → Nat
  len : Nat
  flags : Nat

/-- Dispatch of one message inside i2c_atm_transfer's loop: a message whose
direction bits (flags masked by I2C_MSG_RW_MASK) equal I2C_MSG_WRITE goes to
the write sequencer (with its index in the transfer), any other to the read
sequencer.  Only the error component of the sequencer result is the value the
loop tests. -/
def msg_dispatch (ack : Nat → Bool) (inv : Nat → Nat) (addr : Nat)
    (m : Msg) (idx : Nat) : Option Err :=
  if m.flags &&& I2C_MSG_RW_MASK = I2C_MSG_WRITE then
    (i2c_atm_write_msg ack addr m.buf m.len m.flags idx).1
  else
    (i2c_atm_read_msg ack inv addr m.len m.flags).1

/-- Message loop of i2c_atm_transfer: processes the messages in list order,
starting at message index i, stopping at the first message whose sequencer
returns an error; returns the loop's final ret value and the number of
messages dispatched.  acks and invs give each message (by its index) its ack
and incoming-data oracles. -/
def transfer_loop (acks : Nat → Nat → Bool) (invs : Nat → Nat → Nat)
    (addr : Nat) : List Msg → Nat → Option Err × Nat
  | [], _ => (none, 0)
  | m :: rest, i =>
    match msg_dispatch (acks i) (invs i) addr m i with
    | some e => (some e, 1)
    | none =>
      ((transfer_loop acks invs addr rest (i + 1)).1,
       (transfer_loop acks invs addr rest (i + 1)).2 + 1)

/-- Observable outcome of one i2c_atm_transfer call: the returned result, the
number of messages dispatched to a sequencer, and how many times the
exclusion semaphore was taken and given during the call. -/
structure TransferOut where
  res : Option Err
  dispatched : Nat
  semTakes : Nat
  semGives : Nat
  deriving DecidableEq

/-- Transfer orchestrator i2c_atm_transfer.  cfg is the controller
configuration word stored by i2c_atm_configure: when its 10-bit-addressing
bit is set the call fails with -ENOTSUP before taking the semaphore;
otherwise the semaphore is taken, the message loop runs, the semaphore is
given, and the loop's ret is returned. -/
def i2c_atm_transfer (acks : Nat → Nat → Bool) (invs : Nat → Nat → Nat)
    (cfg addr : Nat) (msgs : List Msg) : TransferOut :=
  if cfg &&& I2C_ADDR_10_BITS ≠ 0 then ⟨some .notsup, 0, 0, 0⟩
  else
    ⟨(transfer_loop acks invs addr msgs 0).1,
     (transfer_loop acks invs addr msgs 0).2, 1, 1⟩

/-- Specification-side list of the per-message sequencer results, in list
order, starting at message index i (what each message would return if
dispatched). -/
def transferResults (acks : Nat → Nat → Bool) (invs : Nat → Nat → Nat)
    (addr : Nat) : List Msg → Nat → List (Option Err)
  | [], _ => []
  | m :: rest, i =>
    msg_dispatch (acks i) (invs i) addr m i ::
      transferResults acks invs addr rest (i + 1)

/-- The five speed classes of the specification's lookup table (the numeric
I2C_SPEED values live in the Zephyr i2c.h header, not under src/; the class
domain is modelled from the spec's enumeration). -/
inductive SpeedClass | standard | fast | fastPlus | high | ultra
  deriving DecidableEq

/-- Speed-to-frequency lookup table s2f_tbl of i2c_atm_set_speed: standard
maps to 100 kHz, fast to 400 kHz, fast-plus to 1 MHz, high and ultra to the
unsupported sentinel 0. -/
def s2f_tbl : SpeedClass → Nat
  | .standard => 100000
  | .fast => 400000
  | .fastPlus => 1000000
  | .high => 0
  | .ultra => 0

/-- Modelled from the spec: the position of each speed class in the fixed
five-entry lookup table, following the spec's enumeration order (the numeric
I2C_SPEED values of the Zephyr header are not under src/). -/
def speedIdx : SpeedClass → Nat
  | .standard => 0
  | .fast => 1
  | .fastPlus => 2
  | .high => 3
  | .ultra => 4

/-- The lookup table as the five-entry list the claims describe, ordered by
speedIdx. -/
def s2f_list : List Nat := [100000, 400000, 1000000, 0, 0]

/-- Speed programming i2c_atm_set_speed: looks the class up in s2f_tbl,
rejects a zero frequency with -ENOTSUP without touching the clock-divider
register, else programs the divider ref / (hertz * 4) - 1, computed in
uint32_t arithmetic (ref is the bus reference clock in hertz).  Result:
(error if any, divider value written to the clock-divider register if any). -/
def i2c_atm_set_speed (ref : Nat) (speed : SpeedClass) : Option Err × Option Nat :=
  let hertz := s2f_tbl speed
  if hertz = 0 then (some .notsup, none)
  else (none, some ((ref / (hertz * 4) + 4294967295) % 4294967296))

/-- Ack oracle under which every driven out-phase is acknowledged. -/
def ackAll : Nat → Bool := fun _ => true

/-- Per-message ack oracle family with every phase acknowledged. -/
def acksAll : Nat → Nat → Bool := fun _ _ => true

/-- Per-message incoming-data oracle family latching zero bytes. -/
def invsZero : Nat → Nat → Nat := fun _ _ => 0

/-- An all-zero byte buffer for concrete instances. -/
def bufZero : Nat → Nat := fun _ => 0

theorem i2c_out_sync_poll_none (T : Nat) :
    ∀ fuel polls, i2c_out_sync_poll (fun _ => false) T fuel polls = none := by
  intro fuel
  induction fuel with
  | zero => intro polls; rfl
  | succ n ih => intro polls; simp [i2c_out_sync_poll, ih]

theorem i2c_in_sync_poll_timedOut_aux (T : Nat) :
    ∀ k i polls fuel, i + k = T + 1 →
      i2c_in_sync_poll (fun _ => false) T (fuel + k + 1) i polls =
        some (.timedOut (T + 1) (polls + k + 1) 0) := by
  intro k
  induction k with
  | zero =>
    intro i polls fuel h
    have hi : i = T + 1 := by omega
    subst hi
    simp [i2c_in_sync_poll]
  | succ k ih =>
    intro i polls fuel h
    have hle : ¬ T < i := by omega
    have h2 : (i + 1) + k = T + 1 := by omega
    have hrec := ih (i + 1) (polls + 1) fuel h2
    have step : fuel + (k + 1) + 1 = fuel + k + 1 + 1 := by omega
    rw [step]
    simp only [i2c_in_sync_poll, Bool.false_eq_true, if_false] at hrec ⊢
    rw [if_neg hle, hrec]
    have e : polls + 1 + k + 1 = polls + (k + 1) + 1 := by omega
    rw [e]

/-- C1 (code bug): the polling loop of i2c_out_sync never terminates when the
status register never reports completion: because the counter is re-declared
inside the loop body, the timeout check compares 0 against the ceiling and
never fires, for every ceiling T, for any number of loop iterations (fuel),
from any point in the status stream. -/
theorem i2c_out_sync_poll_loops_forever (T fuel polls : Nat) :
    i2c_out_sync_poll (fun _ => false) T fuel polls = none :=
  i2c_out_sync_poll_none T fuel polls

/-- C2 (code bug): with a status register that never reports completion,
i2c_in_sync's loop returns -EIO after exactly T+1 completed (yielding)
iterations and T+2 status reads, writing 0 to the transaction setup register
immediately before the return; but i2c_out_sync's loop never returns at all,
so the claim fails for the drive-one-byte (write-phase) operation. -/
theorem i2c_sync_poll_iteration_counts (T fuel : Nat) :
    i2c_in_sync_poll (fun _ => false) T (fuel + T + 2) 0 0 =
      some (.timedOut (T + 1) (T + 2) 0) ∧
    (∀ f polls, i2c_out_sync_poll (fun _ => false) T f polls = none) := by
  constructor
  · have h := i2c_in_sync_poll_timedOut_aux T (T + 1) 0 0 fuel (by omega)
    have e1 : fuel + (T + 1) + 1 = fuel + T + 2 := by omega
    have e2 : 0 + (T + 1) + 1 = T + 2 := by omega
    rw [e1, e2] at h
    exact h
  · exact fun f polls => i2c_out_sync_poll_none T f polls

theorem u32_pred_eq_sub (len : Nat) (h1 : 1 ≤ len) (h2 : len < 4294967296) :
    u32_pred len = len - 1 := by
  unfold u32_pred
  omega

theorem u32_pred_zero : u32_pred 0 = 4294967295 := by
  unfold u32_pred
  omega

theorem write_data_loop_ackAll (buf : Nat → Nat) (n : Nat) : ∀ i p,
    write_data_loop ackAll buf n i p =
      (none, (List.range' i n).map (fun j => Phase.out .STALL (buf j) .STALL),
       List.range' i n) := by
  induction n with
  | zero => intro i p; rfl
  | succ m ih =>
    intro i p
    simp only [write_data_loop, ackAll, if_true, ih, List.range'_succ, List.map_cons]

theorem write_msg_rest_ackAll (buf : Nat → Nat) (n : Nat) (tail : i2c_tail_t)
    (p0 : Nat) :
    write_msg_rest ackAll buf n tail p0 =
      (none,
       (List.range' 0 n).map (fun j => Phase.out .STALL (buf j) .STALL) ++
         [Phase.out .STALL (buf n) tail],
       List.range' 0 n ++ [n]) := by
  simp only [write_msg_rest, write_data_loop_ackAll, ackAll, if_true]

theorem read_data_loop_eq (inv : Nat → Nat) (n : Nat) : ∀ i,
    read_data_loop inv n i =
      ((List.range' i n).map (fun _ => Phase.inp .ACK .STALL),
       (List.range' i n).map (fun j => (j, inv j % 256))) := by
  induction n with
  | zero => intro i; rfl
  | succ m ih =>
    intro i
    simp only [read_data_loop, ih, List.range'_succ, List.map_cons]

/-- C3 (code bug): a zero-length write message with flags exactly I2C_MSG_STOP
at message index 1 passes the sequencer's validation, yet the sequencer is not
access-safe on it: because the loop bound msg.len - 1 underflows in uint32_t
arithmetic, the sequencer reads the (empty) buffer — index 0 is among the
indices read, though no index is below the length 0 — and issues phases even
though the message carries no payload and no address phase is due. -/
theorem i2c_atm_write_msg_zero_len_oob :
    (i2c_atm_write_msg ackAll 80 bufZero 0 I2C_MSG_STOP 1).1 ≠ some .inval ∧
    0 ∈ (i2c_atm_write_msg ackAll 80 bufZero 0 I2C_MSG_STOP 1).2.2 ∧
    (i2c_atm_write_msg ackAll 80 bufZero 0 I2C_MSG_STOP 1).2.1 ≠ [] := by
  have hv : ¬ ((0 : Nat) = 0 ∧ I2C_MSG_STOP ≠ I2C_MSG_STOP) := by simp
  simp only [i2c_atm_write_msg, hv, if_false, if_neg, u32_pred_zero,
    write_msg_rest_ackAll]
  refine ⟨by simp, ?_, by simp⟩
  show 0 ∈ List.range' 0 4294967295 ++ [4294967295]
  have hm : (0 : Nat) ∈ List.range' 0 4294967295 := by
    rw [List.mem_range'_1]
    omega
  exact List.mem_append.mpr (Or.inl hm)

/-- C4 (confirmed): for every message that passes the write sequencer's
validation, at message index 0 the first phase drives the byte
(addr shifted left by 1, or-ed with the write bit, as uint8_t) with head
START, and its tail is STALL when the message has payload, else STOP (the
zero-length probe returns right after it); every payload byte but the last is
driven with head STALL and tail STALL; and the last payload byte's tail is
STOP exactly when the STOP flag is set, else STALL. -/
theorem i2c_atm_write_msg_phase_seq (addr : Nat) (buf : Nat → Nat)
    (len flags idx : Nat) (h2 : len < 4294967296) :
    (0 < len →
      i2c_atm_write_msg ackAll addr buf len flags idx =
        (none,
         (if idx = 0 then
            [Phase.out .START (((addr <<< 1) ||| I2C_WRITE) % 256) .STALL]
          else []) ++
           ((List.range (len - 1)).map fun j => Phase.out .STALL (buf j) .STALL) ++
           [Phase.out .STALL (buf (len - 1))
              (if flags &&& I2C_MSG_STOP ≠ 0 then .STOP else .STALL)],
         List.range (len - 1) ++ [len - 1])) ∧
    (len = 0 → flags = I2C_MSG_STOP →
      i2c_atm_write_msg ackAll addr buf len flags 0 =
        (none, [Phase.out .START (((addr <<< 1) ||| I2C_WRITE) % 256) .STOP], [])) := by
  constructor
  · intro hpos
    have hv : ¬ (len = 0 ∧ flags ≠ I2C_MSG_STOP) := by omega
    have hne : len ≠ 0 := by omega
    by_cases hidx : idx = 0
    · subst hidx
      simp [i2c_atm_write_msg, hv, hne, ackAll, write_msg_rest_ackAll,
        u32_pred_eq_sub len hpos h2, List.range_eq_range']
    · simp [i2c_atm_write_msg, hv, hidx, ackAll, write_msg_rest_ackAll,
        u32_pred_eq_sub len hpos h2, List.range_eq_range']
  · intro hz hf
    subst hz; subst hf
    simp [i2c_atm_write_msg, ackAll]

theorem i2c_atm_write_msg_phase_seq_witness :
    i2c_atm_write_msg ackAll 80 bufZero 2 I2C_MSG_STOP 0 =
      (none,
       [Phase.out .START 160 .STALL, Phase.out .STALL 0 .STALL,
        Phase.out .STALL 0 .STOP],
       [0, 1]) := by
  have h := (i2c_atm_write_msg_phase_seq 80 bufZero 2 I2C_MSG_STOP 0
    (by norm_num)).1 (by norm_num)
  simpa [bufZero, I2C_WRITE, I2C_MSG_STOP, List.range_succ] using h

/-- C5 (confirmed): for every valid read message the sequencer first drives
the address byte (addr shifted left by 1, or-ed with the read bit, as
uint8_t) with head START and tail STALL; every byte but the last is latched
with ACK and tail STALL; the last byte is latched with NACK, with tail STOP
when the STOP flag is set and RESTART otherwise; and every latched byte is
stored into the buffer at its index. -/
theorem i2c_atm_read_msg_phase_seq (addr : Nat) (inv : Nat → Nat)
    (len flags : Nat) (h1 : 0 < len) :
    i2c_atm_read_msg ackAll inv addr len flags =
      (none,
       Phase.out .START (((addr <<< 1) ||| I2C_READ) % 256) .STALL ::
         ((List.range (len - 1)).map fun _ => Phase.inp .ACK .STALL) ++
         [Phase.inp .NACK (if flags &&& I2C_MSG_STOP ≠ 0 then .STOP else .RESTART)],
       ((List.range (len - 1)).map fun j => (j, inv j % 256)) ++
         [(len - 1, inv (len - 1) % 256)]) := by
  have hne : len ≠ 0 := by omega
  simp [i2c_atm_read_msg, hne, ackAll, read_data_loop_eq, List.range_eq_range']

theorem i2c_atm_read_msg_phase_seq_witness :
    i2c_atm_read_msg ackAll bufZero 80 2 0 =
      (none,
       [Phase.out .START 161 .STALL, Phase.inp .ACK .STALL,
        Phase.inp .NACK .RESTART],
       [(0, 0), (1, 0)]) := by
  have h := i2c_atm_read_msg_phase_seq 80 bufZero 2 0 (by norm_num)
  simpa [bufZero, I2C_READ, I2C_MSG_STOP, List.range_succ] using h

/-- C6 (confirmed): a zero-length read message always fails with -EINVAL
before any phase is issued; a zero-length write message that is accepted
(not rejected with -EINVAL by validation) necessarily has the STOP
(release-bus-after) flag set; and a zero-length write message without the
STOP flag fails with -EINVAL before any phase is issued. -/
theorem i2c_zero_length_validation (ack : Nat → Bool) (inv : Nat → Nat)
    (addr : Nat) (buf : Nat → Nat) (flags idx : Nat) :
    i2c_atm_read_msg ack inv addr 0 flags = (some .inval, [], []) ∧
    ((i2c_atm_write_msg ack addr buf 0 flags idx).1 ≠ some .inval →
      flags &&& I2C_MSG_STOP ≠ 0) ∧
    (flags &&& I2C_MSG_STOP = 0 →
      i2c_atm_write_msg ack addr buf 0 flags idx = (some .inval, [], [])) := by
  refine ⟨rfl, ?_, ?_⟩
  · intro hacc
    by_cases hf : flags = I2C_MSG_STOP
    · subst hf; simp [I2C_MSG_STOP]
    · exfalso
      apply hacc
      simp [i2c_atm_write_msg, hf]
  · intro hbit
    have hf : flags ≠ I2C_MSG_STOP := by
      intro hf; subst hf; simp [I2C_MSG_STOP] at hbit
    simp [i2c_atm_write_msg, hf]

theorem i2c_zero_length_validation_witness :
    i2c_atm_write_msg ackAll 80 bufZero 0 0 1 = (some .inval, [], []) :=
  (i2c_zero_length_validation ackAll bufZero 80 bufZero 0 1).2.2 (by decide)

theorem transfer_loop_all_ok (acks : Nat → Nat → Bool) (invs : Nat → Nat → Nat)
    (addr : Nat) : ∀ (msgs : List Msg) (i : Nat),
    (∀ r ∈ transferResults acks invs addr msgs i, r = none) →
    transfer_loop acks invs addr msgs i = (none, msgs.length) := by
  intro msgs
  induction msgs with
  | nil => intro i h; rfl
  | cons m rest ih =>
    intro i h
    have hd : msg_dispatch (acks i) (invs i) addr m i = none := by
      apply h
      simp [transferResults]
    have ht := ih (i + 1) (fun r hr => h r (by simp [transferResults, hr]))
    simp [transfer_loop, hd, ht]

theorem transfer_loop_first_err (acks : Nat → Nat → Bool)
    (invs : Nat → Nat → Nat) (addr : Nat) :
    ∀ (msgs : List Msg) (i : Nat) (l1 : List (Option Err)) (e : Err)
      (l2 : List (Option Err)),
    transferResults acks invs addr msgs i = l1 ++ some e :: l2 →
    (∀ r ∈ l1, r = none) →
    transfer_loop acks invs addr msgs i = (some e, l1.length + 1) := by
  intro msgs
  induction msgs with
  | nil =>
    intro i l1 e l2 heq h1
    cases l1 <;> simp [transferResults] at heq
  | cons m rest ih =>
    intro i l1 e l2 heq h1
    cases l1 with
    | nil =>
      simp only [transferResults, List.nil_append, List.cons.injEq] at heq
      simp [transfer_loop, heq.1]
    | cons r0 l1t =>
      have hr0 : r0 = none := h1 r0 (by simp)
      subst hr0
      simp only [transferResults, List.cons_append, List.cons.injEq] at heq
      have ht := ih (i + 1) l1t e l2 heq.2 (fun r hr => h1 r (by simp [hr]))
      simp [transfer_loop, heq.1, ht]

theorem transfer_loop_ok_all (acks : Nat → Nat → Bool) (invs : Nat → Nat → Nat)
    (addr : Nat) : ∀ (msgs : List Msg) (i : Nat),
    (transfer_loop acks invs addr msgs i).1 = none →
    ∀ r ∈ transferResults acks invs addr msgs i, r = none := by
  intro msgs
  induction msgs with
  | nil => intro i h r hr; simp [transferResults] at hr
  | cons m rest ih =>
    intro i h r hr
    simp only [transferResults, List.mem_cons] at hr
    cases hd : msg_dispatch (acks i) (invs i) addr m i with
    | some e => simp [transfer_loop, hd] at h
    | none =>
      rcases hr with hr | hr
      · rw [hr, hd]
      · exact ih (i + 1) (by simpa [transfer_loop, hd] using h) r hr

/-- C7 (confirmed): on the dispatch path (config without the 10-bit flag) the
orchestrator processes the messages in list order, dispatching each one to
the write or read sequencer by its direction bits (msg_dispatch); when every
message's result is ok it returns success with all messages dispatched; when
a first message errs (all before it ok) it stops there, dispatching only the
messages up to and including it, and returns that first error; and it returns
success only if every message's result is ok. -/
theorem i2c_atm_transfer_first_error (acks : Nat → Nat → Bool)
    (invs : Nat → Nat → Nat) (cfg addr : Nat) (msgs : List Msg)
    (h10 : cfg &&& I2C_ADDR_10_BITS = 0) :
    ((∀ r ∈ transferResults acks invs addr msgs 0, r = none) →
      i2c_atm_transfer acks invs cfg addr msgs = ⟨none, msgs.length, 1, 1⟩) ∧
    (∀ (l1 : List (Option Err)) (e : Err) (l2 : List (Option Err)),
      transferResults acks invs addr msgs 0 = l1 ++ some e :: l2 →
      (∀ r ∈ l1, r = none) →
      i2c_atm_transfer acks invs cfg addr msgs = ⟨some e, l1.length + 1, 1, 1⟩) ∧
    ((i2c_atm_transfer acks invs cfg addr msgs).res = none →
      ∀ r ∈ transferResults acks invs addr msgs 0, r = none) := by
  have hng : ¬ (cfg &&& I2C_ADDR_10_BITS ≠ 0) := by simpa using h10
  refine ⟨?_, ?_, ?_⟩
  · intro hall
    have h := transfer_loop_all_ok acks invs addr msgs 0 hall
    simp [i2c_atm_transfer, hng, h]
  · intro l1 e l2 heq h1
    have h := transfer_loop_first_err acks invs addr msgs 0 l1 e l2 heq h1
    simp [i2c_atm_transfer, hng, h]
  · intro hres
    apply transfer_loop_ok_all acks invs addr msgs 0
    simpa [i2c_atm_transfer, hng] using hres

theorem i2c_atm_transfer_first_error_witness :
    i2c_atm_transfer acksAll invsZero 0 80 [⟨bufZero, 0, 0⟩] =
      ⟨some .inval, 1, 1, 1⟩ := by
  have h := (i2c_atm_transfer_first_error acksAll invsZero 0 80
    [⟨bufZero, 0, 0⟩] (by decide)).2.1 [] .inval [] rfl (by simp)
  simpa using h

/-- C8 counterexample: a transfer call whose stored configuration has the
10-bit-addressing bit set exits on the validation-error path without ever
releasing (or taking) the exclusion semaphore, so this call does not release
the lock exactly once. -/
theorem i2c_atm_transfer_lock_cex :
    i2c_atm_transfer acksAll invsZero I2C_ADDR_10_BITS 80 [] =
      ⟨some .notsup, 0, 0, 0⟩ ∧
    (i2c_atm_transfer acksAll invsZero I2C_ADDR_10_BITS 80 []).semGives ≠ 1 := by
  exact ⟨rfl, by decide⟩

/-- C8 (corrected): every transfer call gives the exclusion semaphore exactly
as many times as it takes it — zero times on the early 10-bit-addressing
validation-error path, which returns before the take, and exactly once on
every path that reaches message processing (success and mid-message error) —
so the lock's availability after the call equals its availability before. -/
theorem i2c_atm_transfer_lock_balanced (acks : Nat → Nat → Bool)
    (invs : Nat → Nat → Nat) (cfg addr : Nat) (msgs : List Msg) :
    (i2c_atm_transfer acks invs cfg addr msgs).semGives =
      (i2c_atm_transfer acks invs cfg addr msgs).semTakes ∧
    (cfg &&& I2C_ADDR_10_BITS ≠ 0 →
      (i2c_atm_transfer acks invs cfg addr msgs).semGives = 0) ∧
    (cfg &&& I2C_ADDR_10_BITS = 0 →
      (i2c_atm_transfer acks invs cfg addr msgs).semGives = 1) := by
  by_cases hc : cfg &&& I2C_ADDR_10_BITS = 0 <;> simp [i2c_atm_transfer, hc]

theorem i2c_atm_transfer_lock_balanced_witness :
    (i2c_atm_transfer acksAll invsZero 0 80 []).semGives = 1 :=
  (i2c_atm_transfer_lock_balanced acksAll invsZero 0 80 []).2.2 (by decide)

/-- C9 (confirmed): for the standard, fast and fast-plus classes,
i2c_atm_set_speed succeeds and programs the clock divider
ref / (frequency * 4) - 1 with frequency 100000, 400000 and 1000000 hertz
respectively (stated for a reference clock large enough that the uint32_t
subtraction does not wrap, i.e. a nonzero quotient); for the high and ultra
classes it fails with -ENOTSUP and writes no divider. -/
theorem i2c_atm_set_speed_divider (ref : Nat) (h4 : 4000000 ≤ ref)
    (h32 : ref < 4294967296) :
    i2c_atm_set_speed ref .standard = (none, some (ref / 400000 - 1)) ∧
    i2c_atm_set_speed ref .fast = (none, some (ref / 1600000 - 1)) ∧
    i2c_atm_set_speed ref .fastPlus = (none, some (ref / 4000000 - 1)) ∧
    i2c_atm_set_speed ref .high = (some .notsup, none) ∧
    i2c_atm_set_speed ref .ultra = (some .notsup, none) := by
  have key : ∀ d : Nat, 0 < d → d ≤ 4000000 →
      (ref / d + 4294967295) % 4294967296 = ref / d - 1 := by
    intro d hd hdle
    have h1 : 1 ≤ ref / d := (Nat.one_le_div_iff hd).mpr (le_trans hdle h4)
    have h2 : ref / d ≤ ref := Nat.div_le_self ref d
    omega
  refine ⟨?_, ?_, ?_, rfl, rfl⟩ <;>
    simp [i2c_atm_set_speed, s2f_tbl,
      key 400000 (by norm_num) (by norm_num),
      key 1600000 (by norm_num) (by norm_num),
      key 4000000 (by norm_num) (by norm_num)]

theorem i2c_atm_set_speed_divider_witness :
    i2c_atm_set_speed 16000000 .standard = (none, some 39) ∧
    i2c_atm_set_speed 16000000 .high = (some .notsup, none) := by
  have h := i2c_atm_set_speed_divider 16000000 (by norm_num) (by norm_num)
  exact ⟨by rw [h.1], h.2.2.2.1⟩

/-- C10 (confirmed, spec-modelled): every speed-class value i2c_atm_set_speed
can receive indexes within the bounds of the five-entry lookup table (the
class domain is modelled from the spec's five-class enumeration, since the
numeric I2C_SPEED values live outside src/), the list agrees with the lookup
everywhere, and every class not mapped to a nonzero frequency is rejected
with -ENOTSUP. -/
theorem i2c_atm_set_speed_table_safe (ref : Nat) :
    (∀ sc : SpeedClass, speedIdx sc < s2f_list.length) ∧
    (∀ sc : SpeedClass, s2f_list.getD (speedIdx sc) 0 = s2f_tbl sc) ∧
    (∀ sc : SpeedClass, s2f_tbl sc = 0 →
      i2c_atm_set_speed ref sc = (some .notsup, none)) := by
  refine ⟨?_, ?_, ?_⟩
  · intro sc; cases sc <;> simp [speedIdx, s2f_list]
  · intro sc; cases sc <;> rfl
  · intro sc h0
    simp [i2c_atm_set_speed, h0]

theorem i2c_atm_set_speed_table_safe_witness :
    i2c_atm_set_speed 16000000 .high = (some .notsup, none) :=
  (i2c_atm_set_speed_table_safe 16000000).2.2 .high rfl

end I2cAtm
